import Mathlib

/-!
Shallow embedding of the `ayurveda-kg` knowledge-graph core
(`src/avkg/knowledge_graph.py`, with `src/avkg/kg.py` a structurally
identical draft variant), its recursive JSON loader, and the anomaly
scorer (`src/avkg/ayurveda.py` / `src/avkg/utils.py`).

Modelling conventions:
* Python `Entity` / `Relation` compare and hash by their string content
  (`EmbeddedText.__eq__` / `__hash__`); the embedding vector never takes
  part in equality, so entities and relations are modelled as strings.
* Python `Fact` defines neither `__eq__` nor `__hash__`, so Python set
  membership for facts is object identity.  The field `uid` models the
  identity of the object allocated by each `Fact(...)` constructor call:
  two distinct constructor calls yield distinct `uid`s, two references to
  the same object share the `uid`.
* A Python `set` is modelled as a duplicate-free list (`setAdd` inserts
  only when absent); all properties proved are order-insensitive or about
  concrete runs.
* The `defaultdict(set)` indices are modelled as total functions that
  default to the empty list, which is exactly the observable behaviour of
  `defaultdict` here (the key-creation side effect of `__getitem__` is
  unobservable in this code base).
* Raised Python exceptions (`assert`, `ValueError` from `max([])`) are
  modelled as `none` of an `Option` result.
* Nonterminating recursion (`get_objects` on a cyclic subcategory graph)
  is modelled with a fuel parameter: a run that exhausts every fuel bound
  is a diverging run.
-/

namespace AvKG

/-- `Entity` from `knowledge_graph.py`: equality and hash are by `content`
(inherited from `EmbeddedText`); the embedding vector is irrelevant to
identity and is omitted. -/
structure Entity where
  content : String
deriving DecidableEq, Repr

/-- `Relation` from `knowledge_graph.py`: equality and hash are by
`content`, exactly as for `Entity`. -/
structure Relation where
  content : String
deriving DecidableEq, Repr

/-- `Fact` from `knowledge_graph.py`.  The Python class defines no
`__eq__`/`__hash__`, so two `Fact` objects are equal (for set membership)
iff they are the same object; `uid` models that object identity. -/
structure Fact where
  uid : Nat
  head : Entity
  relation : Relation
  tail : Entity
deriving DecidableEq, Repr

/-- Insertion into a Python set, modelled on duplicate-free lists:
a present element leaves the set unchanged, a new one is appended. -/
def setAdd {α : Type} [DecidableEq α] (xs : List α) (x : α) : List α :=
  if x ∈ xs then xs else xs ++ [x]

/-- `objects.update(os)`: insert every element of `os` into `xs`. -/
def setUnionAdd {α : Type} [DecidableEq α] (xs ys : List α) : List α :=
  ys.foldl setAdd xs

/-- Python `a.intersection(b)`: the elements of `a` that are also in `b`. -/
def setInter {α : Type} [DecidableEq α] (xs ys : List α) : List α :=
  xs.filter (fun x => decide (x ∈ ys))

/-- `KnowledgeGraph.__init__`: three element sets plus the three
`defaultdict(set)` indices, modelled as total functions defaulting to the
empty set. -/
structure KnowledgeGraph where
  entities : List Entity
  relations : List Relation
  facts : List Fact
  head_to_facts : Entity → List Fact
  relation_to_facts : Relation → List Fact
  tail_to_facts : Entity → List Fact

namespace KnowledgeGraph

/-- A freshly constructed `KnowledgeGraph()`. -/
def empty : KnowledgeGraph where
  entities := []
  relations := []
  facts := []
  head_to_facts := fun _ => []
  relation_to_facts := fun _ => []
  tail_to_facts := fun _ => []

/-- `KnowledgeGraph.SUBCATEGORY_RELATION = Relation('is of')`. -/
def SUBCATEGORY_RELATION : Relation := ⟨"is of"⟩

/-- `get_facts_by_head`: a plain index lookup (a `defaultdict` yields the
empty set on an absent key). -/
def get_facts_by_head (kg : KnowledgeGraph) (head : Entity) : List Fact :=
  kg.head_to_facts head

/-- `get_facts_by_relation`. -/
def get_facts_by_relation (kg : KnowledgeGraph) (relation : Relation) : List Fact :=
  kg.relation_to_facts relation

/-- `get_facts_by_tail`. -/
def get_facts_by_tail (kg : KnowledgeGraph) (tail : Entity) : List Fact :=
  kg.tail_to_facts tail

/-- `KnowledgeGraph.add`: insert head and tail into the entity set, the
relation into the relation set, the fact into the fact set and into all
three indices (each index only at the fact's own key). -/
def add (kg : KnowledgeGraph) (fact : Fact) : KnowledgeGraph where
  entities := setAdd (setAdd kg.entities fact.head) fact.tail
  relations := setAdd kg.relations fact.relation
  facts := setAdd kg.facts fact
  head_to_facts := fun e =>
    if e = fact.head then setAdd (kg.head_to_facts e) fact else kg.head_to_facts e
  relation_to_facts := fun r =>
    if r = fact.relation then setAdd (kg.relation_to_facts r) fact else kg.relation_to_facts r
  tail_to_facts := fun e =>
    if e = fact.tail then setAdd (kg.tail_to_facts e) fact else kg.tail_to_facts e

/-- `KnowledgeGraph.__iadd__`: add every fact of `other` into `self`. -/
def merge (kg other : KnowledgeGraph) : KnowledgeGraph :=
  other.facts.foldl add kg

/-- `KnowledgeGraph.exact_search`.  The three filters are optional
(`None` in Python); an `Entity`/`Relation` argument is always truthy, so
`if head:` is `head.isSome`.  Note the source's `if relation and not
results:` branch: when the accumulated `results` set is empty the next
supplied filter REPLACES it by that filter's full index set instead of
intersecting. -/
def exact_search (kg : KnowledgeGraph)
    (head : Option Entity) (relation : Option Relation) (tail : Option Entity) :
    List Fact :=
  let results : List Fact := []
  let results :=
    match head with
    | some h => kg.get_facts_by_head h
    | none => results
  let results :=
    match relation with
    | some r =>
      if results.isEmpty then kg.get_facts_by_relation r
      else setInter results (kg.get_facts_by_relation r)
    | none => results
  let results :=
    match tail with
    | some t =>
      if results.isEmpty then kg.get_facts_by_tail t
      else setInter results (kg.get_facts_by_tail t)
    | none => results
  results

/-- `KnowledgeGraph.fuzzy_search`: scan the whole fact set, keeping a fact
unless a supplied filter's `is_like` test rejects it.  The `is_like`
predicates depend on the external embedding model and are taken as
parameters. -/
def fuzzy_search (entLike : Entity → Entity → Bool) (relLike : Relation → Relation → Bool)
    (kg : KnowledgeGraph)
    (head : Option Entity) (relation : Option Relation) (tail : Option Entity) :
    List Fact :=
  kg.facts.filter (fun fact =>
    (match head with
     | some h => entLike fact.head h
     | none => true) &&
    (match relation with
     | some r => relLike fact.relation r
     | none => true) &&
    (match tail with
     | some t => entLike fact.tail t
     | none => true))

end KnowledgeGraph

mutual

/-- `KnowledgeGraph.get_objects`, with an explicit fuel bound: the source
recursion has no visited set, so fuel exhaustion at every bound models a
run that never terminates.  With fuel left, the body is the source's loop
over `get_facts_by_tail(category)` (`collectObjects`) followed by the
`if not objects: return set([category])` base case. -/
def get_objectsF : Nat → KnowledgeGraph → Entity → Option (List Entity)
  | 0, _, _ => none
  | n + 1, kg, category =>
    match collectObjects n kg (some []) (kg.get_facts_by_tail category) with
    | none => none
    | some objects => if objects.isEmpty then some [category] else some objects
termination_by n _ _ => (n, 0)

/-- The loop of `get_objects`: for each fact with the subcategory
relation, union in the recursive expansion of its head (at the remaining
fuel); `none` aborts the loop when a nested call diverges. -/
def collectObjects : Nat → KnowledgeGraph → Option (List Entity) → List Fact →
    Option (List Entity)
  | _, _, acc, [] => acc
  | _, _, none, _ :: _ => none
  | n, kg, some objects, fact :: rest =>
    if fact.relation = KnowledgeGraph.SUBCATEGORY_RELATION then
      match get_objectsF n kg fact.head with
      | none => none
      | some os => collectObjects n kg (some (setUnionAdd objects os)) rest
    else collectObjects n kg (some objects) rest
termination_by n _ _ fs => (n, fs.length + 1)

end

/-- Graph states reachable from `KnowledgeGraph()` by any sequence of
`add` and `__iadd__` (merge) operations. -/
inductive Built : KnowledgeGraph → Prop
  | empty : Built KnowledgeGraph.empty
  | add {kg : KnowledgeGraph} (fact : Fact) : Built kg → Built (kg.add fact)
  | merge {kg : KnowledgeGraph} (other : KnowledgeGraph) :
      Built kg → Built (kg.merge other)

/-! ## The loader (`_load_data_recur` / `update_knowledge_graph`) -/

/-- The value of a relation key in a data file: either a single tail name
or a list of tail names. -/
inductive JsonTails where
  | single (s : String)
  | many (xs : List String)

/-- `tails = [tails] if isinstance(tails, str) else tails`. -/
def tailsToList : JsonTails → List String
  | JsonTails.single s => [s]
  | JsonTails.many xs => xs

/-- A parsed data file: heads mapped to (relation, tails) pairs, in the
JSON object's key order. -/
abbrev FileContent := List (String × List (String × JsonTails))

/-- A directory listing entry: a data file (`stem` + `ext` being the
filename split by `os.path.splitext`) or a subdirectory with its own
listing, in `os.listdir` order. -/
inductive DirEntry where
  | file (stem ext : String) (content : FileContent)
  | dir (name : String) (entries : List DirEntry)

/-- Loader state: the knowledge graph under construction plus the next
fresh object identity to be used by a `Fact(...)` constructor call. -/
structure LoadState where
  kg : KnowledgeGraph
  next : Nat

/-- `kg.add(Fact(h, r, t))`: construct a fresh `Fact` object and add it. -/
def stateAddFact (st : LoadState) (h : Entity) (r : Relation) (t : Entity) : LoadState where
  kg := st.kg.add ⟨st.next, h, r, t⟩
  next := st.next + 1

/-- The innermost loop of `update_knowledge_graph`:
`for tail in tails: kg.add(Fact(head, relation, tail))`. -/
def addTailList (head relation : String) : List String → LoadState → LoadState
  | [], st => st
  | t :: ts, st => addTailList head relation ts (stateAddFact st ⟨head⟩ ⟨relation⟩ ⟨t⟩)

/-- The middle loop of `update_knowledge_graph`:
`for relation, tails in relations.items(): ...`. -/
def addRelTails (head : String) : List (String × JsonTails) → LoadState → LoadState
  | [], st => st
  | (relation, tails) :: rest, st =>
    addRelTails head rest (addTailList head relation (tailsToList tails) st)

/-- `update_knowledge_graph(kg, data_path, category)` after the JSON file
at `data_path` has been parsed into `content`: for every head key, add
`(head, SUBCATEGORY_RELATION, category)` and then one fact per
(relation, tail) pair. -/
def update_knowledge_graph : FileContent → String → LoadState → LoadState
  | [], _, st => st
  | (head, relations) :: rest, category, st =>
    update_knowledge_graph rest category
      (addRelTails head relations
        (stateAddFact st ⟨head⟩ KnowledgeGraph.SUBCATEGORY_RELATION ⟨category⟩))

/-- `_load_data_recur`'s directory loop, with the per-directory recursion
inlined as the `dir` case: `category` is `None` at the root and the
enclosing directory's name below it.  A file whose extension is not
`.json` fails the `assert ext == '.json'`, modelled as `none`. -/
def load_data_recur : Option String → List DirEntry → LoadState → Option LoadState
  | _, [], st => some st
  | category, DirEntry.file stem ext content :: rest, st =>
    if ext = ".json" then
      let st1 :=
        match category with
        | some c => stateAddFact st ⟨stem⟩ KnowledgeGraph.SUBCATEGORY_RELATION ⟨c⟩
        | none => st
      load_data_recur category rest (update_knowledge_graph content stem st1)
    else none
  | category, DirEntry.dir name entries :: rest, st =>
    match load_data_recur (some name) entries st with
    | none => none
    | some st1 => load_data_recur category rest st1

/-- `KnowledgeGraph.load_data(data_dir_path)`: run the recursive loader
from a fresh graph with `category = None` at the root listing. -/
def load_data (entries : List DirEntry) : Option LoadState :=
  load_data_recur none entries ⟨KnowledgeGraph.empty, 0⟩

/-- A (head, relation, tail) triple stripped of object identity. -/
abbrev Triple := Entity × Relation × Entity

/-- The triples of the facts currently stored, in insertion order. -/
def factTriples (kg : KnowledgeGraph) : List Triple :=
  kg.facts.map (fun f => (f.head, f.relation, f.tail))

/-- Modelled from the spec (section 4.4): the facts a single data file's
content is described to emit — one `(head, SUBCATEGORY_RELATION,
subcategory)` fact per head key, plus one `(head, relation, tail)` fact
per (relation, tail) pair, a list-valued tail expanding into one fact per
element. -/
def specFileTriples (subcategory : String) : FileContent → List Triple
  | [] => []
  | (head, relations) :: rest =>
    (⟨head⟩, KnowledgeGraph.SUBCATEGORY_RELATION, ⟨subcategory⟩) ::
      (relations.flatMap (fun rt =>
        (tailsToList rt.2).map (fun t => (⟨head⟩, ⟨rt.1⟩, ⟨t⟩)))) ++
      specFileTriples subcategory rest

/-- Modelled from the spec (section 4.4): the facts a directory listing is
described to emit — for each data file directly under a non-root category
directory one `(subcategory, SUBCATEGORY_RELATION, category)` fact (none
for files directly under the root, where `category` is absent) followed by
the file content's facts; a subdirectory contributes its own listing's
facts with itself as the category. -/
def specDirTriples : Option String → List DirEntry → List Triple
  | _, [] => []
  | category, DirEntry.file stem _ content :: rest =>
    (match category with
     | some c => [(⟨stem⟩, KnowledgeGraph.SUBCATEGORY_RELATION, ⟨c⟩)]
     | none => []) ++
      specFileTriples stem content ++ specDirTriples category rest
  | category, DirEntry.dir name entries :: rest =>
    specDirTriples (some name) entries ++ specDirTriples category rest

/-- Every filename in the tree has the accepted `.json` extension. -/
def allJson : List DirEntry → Bool
  | [] => true
  | DirEntry.file _ ext _ :: rest => decide (ext = ".json") && allJson rest
  | DirEntry.dir _ entries :: rest => allJson entries && allJson rest

/-! ## The anomaly scorer (`utils.softmax`, `ayurveda.get_anomalies`) -/

/-- `softmax` from `utils.py`: subtract the maximum, exponentiate,
normalise.  `max(xs)` raises `ValueError` on an empty list, modelled as
`none`. -/
noncomputable def softmax (xs : List ℝ) : Option (List ℝ) :=
  match xs.max? with
  | none => none
  | some x_max =>
    let shifted := xs.map (fun x => x - x_max)
    let exp_xs := shifted.map Real.exp
    let denom := exp_xs.sum
    some (exp_xs.map (fun e => e / denom))

/-- The first loop of `get_anomalies`: per item, `assert score >= 0`
(a failing assert is `none`) and collect `log(score + 1e-1)`. -/
noncomputable def logScoresOf : List (String × ℝ) → Option (List ℝ)
  | [] => some []
  | (_, score) :: rest =>
    if 0 ≤ score then
      match logScoresOf rest with
      | none => none
      | some ls => some (Real.log (score + 0.1) :: ls)
    else none

/-- The final loop of `get_anomalies`:
`if prob > prob_threshold: anomalies[item] = prob`. -/
noncomputable def thresholdFilter (t : ℝ) : List (String × ℝ) → List (String × ℝ)
  | [] => []
  | p :: rest => if t < p.2 then p :: thresholdFilter t rest else thresholdFilter t rest

/-- `get_anomalies` from `ayurveda.py`: log-transform the scores (failing
on a negative one), softmax them, and keep the items whose probability
strictly exceeds the threshold.  The score mapping is modelled as an
association list in the dict's key order. -/
noncomputable def get_anomalies (item_scores : List (String × ℝ)) (prob_threshold : ℝ) :
    Option (List (String × ℝ)) :=
  match logScoresOf item_scores with
  | none => none
  | some log_scores =>
    match softmax log_scores with
    | none => none
    | some probs =>
      some (thresholdFilter prob_threshold ((item_scores.map Prod.fst).zip probs))

/-! ## Index consistency for reachable graphs -/

/-- Each of the three indices holds, at every key, exactly the stored
facts whose corresponding field equals that key. -/
def IndexInv (kg : KnowledgeGraph) : Prop :=
  (∀ e, kg.head_to_facts e = kg.facts.filter (fun f => decide (f.head = e))) ∧
  (∀ r, kg.relation_to_facts r = kg.facts.filter (fun f => decide (f.relation = r))) ∧
  (∀ t, kg.tail_to_facts t = kg.facts.filter (fun f => decide (f.tail = t)))

theorem setAdd_filter {α β : Type} [DecidableEq α] [DecidableEq β] (proj : α → β)
    (facts : List α) (idx : β → List α)
    (hidx : ∀ b, idx b = facts.filter (fun f => decide (proj f = b)))
    (fact : α) (b : β) :
    (if b = proj fact then setAdd (idx b) fact else idx b) =
      (setAdd facts fact).filter (fun f => decide (proj f = b)) := by
  by_cases hmem : fact ∈ facts
  · have h1 : setAdd facts fact = facts := by
      rw [setAdd, if_pos hmem]
    rw [h1]
    by_cases hb : b = proj fact
    · have h2 : fact ∈ idx b := by
        rw [hidx, List.mem_filter]
        exact ⟨hmem, by simp [hb]⟩
      rw [if_pos hb, setAdd, if_pos h2, hidx]
    · rw [if_neg hb, hidx]
  · have h1 : setAdd facts fact = facts ++ [fact] := by
      rw [setAdd, if_neg hmem]
    rw [h1, List.filter_append]
    by_cases hb : b = proj fact
    · have h2 : fact ∉ idx b := by
        rw [hidx, List.mem_filter]
        exact fun hc => hmem hc.1
      rw [if_pos hb, setAdd, if_neg h2, hidx]
      simp [hb]
    · rw [if_neg hb, hidx]
      have h3 : decide (proj fact = b) = false := by
        simp
        exact fun hc => hb hc.symm
      simp [h3]

theorem indexInv_empty : IndexInv KnowledgeGraph.empty := by
  refine ⟨fun _ => rfl, fun _ => rfl, fun _ => rfl⟩

theorem indexInv_add {kg : KnowledgeGraph} (h : IndexInv kg) (fact : Fact) :
    IndexInv (kg.add fact) := by
  obtain ⟨hh, hr, ht⟩ := h
  refine ⟨fun e => ?_, fun r => ?_, fun t => ?_⟩
  · exact setAdd_filter Fact.head kg.facts kg.head_to_facts hh fact e
  · exact setAdd_filter Fact.relation kg.facts kg.relation_to_facts hr fact r
  · exact setAdd_filter Fact.tail kg.facts kg.tail_to_facts ht fact t

theorem indexInv_foldl (l : List Fact) {kg : KnowledgeGraph} (h : IndexInv kg) :
    IndexInv (l.foldl KnowledgeGraph.add kg) := by
  induction l generalizing kg with
  | nil => exact h
  | cons f fs ih => exact ih (indexInv_add h f)

theorem indexInv_built {kg : KnowledgeGraph} (hb : Built kg) : IndexInv kg := by
  induction hb with
  | empty => exact indexInv_empty
  | add fact _ ih => exact indexInv_add ih fact
  | merge other _ ih => exact indexInv_foldl other.facts ih

/-- Claim C4.  After any sequence of `add` and merge operations, every
stored fact is returned by all three index lookups at its own head,
relation and tail, and conversely every fact returned by any index lookup
is a stored fact: the three indices are always consistent with the fact
set. -/
theorem c4_index_consistency {kg : KnowledgeGraph} (hb : Built kg) :
    (∀ f ∈ kg.facts,
      f ∈ kg.get_facts_by_head f.head ∧
      f ∈ kg.get_facts_by_relation f.relation ∧
      f ∈ kg.get_facts_by_tail f.tail) ∧
    (∀ e f, f ∈ kg.get_facts_by_head e → f ∈ kg.facts) ∧
    (∀ r f, f ∈ kg.get_facts_by_relation r → f ∈ kg.facts) ∧
    (∀ t f, f ∈ kg.get_facts_by_tail t → f ∈ kg.facts) := by
  obtain ⟨hh, hr, ht⟩ := indexInv_built hb
  refine ⟨fun f hf => ?_, fun e f hf => ?_, fun r f hf => ?_, fun t f hf => ?_⟩
  · refine ⟨?_, ?_, ?_⟩
    · rw [KnowledgeGraph.get_facts_by_head, hh, List.mem_filter]
      exact ⟨hf, by simp⟩
    · rw [KnowledgeGraph.get_facts_by_relation, hr, List.mem_filter]
      exact ⟨hf, by simp⟩
    · rw [KnowledgeGraph.get_facts_by_tail, ht, List.mem_filter]
      exact ⟨hf, by simp⟩
  · rw [KnowledgeGraph.get_facts_by_head, hh, List.mem_filter] at hf
    exact hf.1
  · rw [KnowledgeGraph.get_facts_by_relation, hr, List.mem_filter] at hf
    exact hf.1
  · rw [KnowledgeGraph.get_facts_by_tail, ht, List.mem_filter] at hf
    exact hf.1

/-- Witness for C4 at a concrete one-fact graph. -/
theorem c4_index_consistency_witness :
    (⟨0, ⟨"a"⟩, ⟨"r"⟩, ⟨"b"⟩⟩ : Fact) ∈
      (KnowledgeGraph.empty.add ⟨0, ⟨"a"⟩, ⟨"r"⟩, ⟨"b"⟩⟩).get_facts_by_head ⟨"a"⟩ := by
  have h := @c4_index_consistency
    (KnowledgeGraph.empty.add ⟨0, ⟨"a"⟩, ⟨"r"⟩, ⟨"b"⟩⟩)
    (Built.add ⟨0, ⟨"a"⟩, ⟨"r"⟩, ⟨"b"⟩⟩ Built.empty)
  exact (h.1 ⟨0, ⟨"a"⟩, ⟨"r"⟩, ⟨"b"⟩⟩ (by decide)).1

/-- Claim C8.  On any reachable graph, an index lookup by a head,
relation or tail that no stored fact carries returns the empty set; the
lookups are total functions, so no error is possible. -/
theorem c8_absent_key_empty {kg : KnowledgeGraph} (hb : Built kg) :
    (∀ e, (∀ f ∈ kg.facts, f.head ≠ e) → kg.get_facts_by_head e = []) ∧
    (∀ r, (∀ f ∈ kg.facts, f.relation ≠ r) → kg.get_facts_by_relation r = []) ∧
    (∀ t, (∀ f ∈ kg.facts, f.tail ≠ t) → kg.get_facts_by_tail t = []) := by
  obtain ⟨hh, hr, ht⟩ := indexInv_built hb
  refine ⟨fun e he => ?_, fun r hrr => ?_, fun t htt => ?_⟩
  · rw [KnowledgeGraph.get_facts_by_head, hh, List.filter_eq_nil_iff]
    intro f hf
    simpa using he f hf
  · rw [KnowledgeGraph.get_facts_by_relation, hr, List.filter_eq_nil_iff]
    intro f hf
    simpa using hrr f hf
  · rw [KnowledgeGraph.get_facts_by_tail, ht, List.filter_eq_nil_iff]
    intro f hf
    simpa using htt f hf

/-- Witness for C8: a key never inserted into a concrete one-fact graph
yields the empty set. -/
theorem c8_absent_key_empty_witness :
    (KnowledgeGraph.empty.add ⟨0, ⟨"a"⟩, ⟨"r"⟩, ⟨"b"⟩⟩).get_facts_by_head ⟨"zzz"⟩ = [] := by
  have h := @c8_absent_key_empty
    (KnowledgeGraph.empty.add ⟨0, ⟨"a"⟩, ⟨"r"⟩, ⟨"b"⟩⟩)
    (Built.add ⟨0, ⟨"a"⟩, ⟨"r"⟩, ⟨"b"⟩⟩ Built.empty)
  exact h.1 ⟨"zzz"⟩ (by decide)

/-! ## Settled claims about search and the subcategory recursion -/

/-- Claim C1 (refuting evaluation).  On the one-fact graph
`{(a, r, b)}`, `exact_search(head=x, relation=r)` is claimed to be the
full fact set filtered by both supplied fields, which is empty; the code
instead falls into the `if relation and not results:` branch (the empty
accumulated result is mistaken for "no filter yet") and returns the full
relation index `{(a, r, b)}`. -/
theorem c1_exact_search_fallback :
    KnowledgeGraph.exact_search (KnowledgeGraph.empty.add ⟨0, ⟨"a"⟩, ⟨"r"⟩, ⟨"b"⟩⟩)
        (some ⟨"x"⟩) (some ⟨"r"⟩) none = [⟨0, ⟨"a"⟩, ⟨"r"⟩, ⟨"b"⟩⟩] ∧
    (KnowledgeGraph.empty.add ⟨0, ⟨"a"⟩, ⟨"r"⟩, ⟨"b"⟩⟩).facts.filter
        (fun f => decide (f.head = ⟨"x"⟩) && decide (f.relation = ⟨"r"⟩)) = [] ∧
    KnowledgeGraph.exact_search (KnowledgeGraph.empty.add ⟨0, ⟨"a"⟩, ⟨"r"⟩, ⟨"b"⟩⟩)
        (some ⟨"x"⟩) (some ⟨"r"⟩) none ≠
      (KnowledgeGraph.empty.add ⟨0, ⟨"a"⟩, ⟨"r"⟩, ⟨"b"⟩⟩).facts.filter
        (fun f => decide (f.head = ⟨"x"⟩) && decide (f.relation = ⟨"r"⟩)) := by
  decide

/-- Claim C2 (refuting evaluation).  Two `Fact(...)` constructor calls
with identical head, relation and tail yield objects the Python set does
not identify (`Fact` has no `__eq__`/`__hash__`), so adding "the same
fact" (equal in all three fields, per the claim's definition of fact
equality) twice grows the fact set to two elements and the head index
likewise, instead of leaving the single-insertion state. -/
theorem c2_add_duplicates_field_equal_fact :
    ((⟨0, ⟨"a"⟩, ⟨"r"⟩, ⟨"b"⟩⟩ : Fact).head = (⟨1, ⟨"a"⟩, ⟨"r"⟩, ⟨"b"⟩⟩ : Fact).head ∧
     (⟨0, ⟨"a"⟩, ⟨"r"⟩, ⟨"b"⟩⟩ : Fact).relation = (⟨1, ⟨"a"⟩, ⟨"r"⟩, ⟨"b"⟩⟩ : Fact).relation ∧
     (⟨0, ⟨"a"⟩, ⟨"r"⟩, ⟨"b"⟩⟩ : Fact).tail = (⟨1, ⟨"a"⟩, ⟨"r"⟩, ⟨"b"⟩⟩ : Fact).tail) ∧
    (KnowledgeGraph.empty.add ⟨0, ⟨"a"⟩, ⟨"r"⟩, ⟨"b"⟩⟩).facts.length = 1 ∧
    ((KnowledgeGraph.empty.add ⟨0, ⟨"a"⟩, ⟨"r"⟩, ⟨"b"⟩⟩).add
        ⟨1, ⟨"a"⟩, ⟨"r"⟩, ⟨"b"⟩⟩).facts.length = 2 ∧
    (((KnowledgeGraph.empty.add ⟨0, ⟨"a"⟩, ⟨"r"⟩, ⟨"b"⟩⟩).add
        ⟨1, ⟨"a"⟩, ⟨"r"⟩, ⟨"b"⟩⟩).get_facts_by_head ⟨"a"⟩).length = 2 ∧
    ((KnowledgeGraph.empty.add ⟨0, ⟨"a"⟩, ⟨"r"⟩, ⟨"b"⟩⟩).add
        ⟨1, ⟨"a"⟩, ⟨"r"⟩, ⟨"b"⟩⟩).facts ≠
      (KnowledgeGraph.empty.add ⟨0, ⟨"a"⟩, ⟨"r"⟩, ⟨"b"⟩⟩).facts := by
  decide

/-- The two-fact cyclic subcategory graph of claim C3:
`(A, 'is of', B)` and `(B, 'is of', A)`. -/
def cycKG : KnowledgeGraph :=
  (KnowledgeGraph.empty.add ⟨0, ⟨"A"⟩, KnowledgeGraph.SUBCATEGORY_RELATION, ⟨"B"⟩⟩).add
    ⟨1, ⟨"B"⟩, KnowledgeGraph.SUBCATEGORY_RELATION, ⟨"A"⟩⟩

/-- Claim C3 (refuting evaluation).  On the cyclic graph, `get_objects`
has no visited set, so the run `A → B → A → …` exhausts every fuel bound:
the recursion never terminates (in Python, a `RecursionError`), against
the claimed finite, non-empty result. -/
theorem c3_get_objects_cycle_diverges :
    ∀ n : Nat, get_objectsF n cycKG ⟨"A"⟩ = none ∧ get_objectsF n cycKG ⟨"B"⟩ = none := by
  intro n
  induction n with
  | zero => exact ⟨by simp [get_objectsF], by simp [get_objectsF]⟩
  | succ n ih =>
    obtain ⟨ihA, ihB⟩ := ih
    have htailA : cycKG.get_facts_by_tail ⟨"A"⟩ =
        [⟨1, ⟨"B"⟩, KnowledgeGraph.SUBCATEGORY_RELATION, ⟨"A"⟩⟩] := by decide
    have htailB : cycKG.get_facts_by_tail ⟨"B"⟩ =
        [⟨0, ⟨"A"⟩, KnowledgeGraph.SUBCATEGORY_RELATION, ⟨"B"⟩⟩] := by decide
    constructor
    · simp only [get_objectsF, htailA, collectObjects, ihB]
      simp
    · simp only [get_objectsF, htailB, collectObjects, ihA]
      simp

/-- Claim C9.  With all three filters absent, `fuzzy_search` keeps every
fact of the scan (no `continue` ever fires) and returns the full fact
set, while `exact_search` never replaces its initial empty `results` set
and returns the empty set. -/
theorem c9_zero_filter_disagreement
    (entLike : Entity → Entity → Bool) (relLike : Relation → Relation → Bool)
    (kg : KnowledgeGraph) :
    KnowledgeGraph.fuzzy_search entLike relLike kg none none none = kg.facts ∧
    KnowledgeGraph.exact_search kg none none none = [] := by
  constructor
  · simp [KnowledgeGraph.fuzzy_search]
  · rfl

theorem setAdd_idem {α : Type} [DecidableEq α] (xs : List α) (x : α) :
    setAdd (setAdd xs x) x = setAdd xs x := by
  have hx : x ∈ setAdd xs x := by
    rw [setAdd]
    by_cases h : x ∈ xs
    · rw [if_pos h]
      exact h
    · rw [if_neg h]
      simp
  rw [setAdd, if_pos hx]

theorem collectObjects_no_sub (n : Nat) (kg : KnowledgeGraph) :
    ∀ (fs : List Fact) (acc : List Entity),
      (∀ f ∈ fs, f.relation ≠ KnowledgeGraph.SUBCATEGORY_RELATION) →
      collectObjects n kg (some acc) fs = some acc := by
  intro fs
  induction fs with
  | nil => intro acc _; simp [collectObjects]
  | cons f fs ih =>
    intro acc h
    simp only [collectObjects, if_neg (h f (by simp))]
    exact ih acc (fun g hg => h g (by simp [hg]))

theorem collectObjects_single_sub (n : Nat) (kg : KnowledgeGraph) (s : Entity)
    (hrec : get_objectsF n kg s = some [s]) :
    ∀ (fs : List Fact) (acc : List Entity),
      (∀ f ∈ fs, f.relation = KnowledgeGraph.SUBCATEGORY_RELATION → f.head = s) →
      collectObjects n kg (some acc) fs =
        some (if fs.any (fun f => decide (f.relation = KnowledgeGraph.SUBCATEGORY_RELATION))
              then setAdd acc s else acc) := by
  intro fs
  induction fs with
  | nil => intro acc _; simp [collectObjects]
  | cons f fs ih =>
    intro acc h
    by_cases hrel : f.relation = KnowledgeGraph.SUBCATEGORY_RELATION
    · have hhead : f.head = s := h f (by simp) hrel
      simp only [collectObjects, if_pos hrel, hhead, hrec]
      have hu : setUnionAdd acc [s] = setAdd acc s := rfl
      rw [hu, ih (setAdd acc s) (fun g hg hgr => h g (by simp [hg]) hgr)]
      have hany : (f :: fs).any
          (fun f => decide (f.relation = KnowledgeGraph.SUBCATEGORY_RELATION)) = true := by
        simp [hrel]
      rw [hany]
      by_cases hfs : fs.any
          (fun f => decide (f.relation = KnowledgeGraph.SUBCATEGORY_RELATION)) = true
      · rw [if_pos hfs, setAdd_idem]
        simp
      · rw [if_neg hfs]
        simp
    · simp only [collectObjects, if_neg hrel]
      rw [ih acc (fun g hg hgr => h g (by simp [hg]) hgr)]
      have hstep : (f :: fs).any
          (fun f => decide (f.relation = KnowledgeGraph.SUBCATEGORY_RELATION)) =
          fs.any (fun f => decide (f.relation = KnowledgeGraph.SUBCATEGORY_RELATION)) := by
        simp [hrel]
      rw [hstep]

/-- On a reachable graph, `get_objects` of a category no stored fact
declares a subcategory of returns the singleton of that category. -/
theorem get_objects_leaf {kg : KnowledgeGraph} (hb : Built kg) (c : Entity) (n : Nat)
    (h : ∀ f ∈ kg.facts, f.tail = c → f.relation ≠ KnowledgeGraph.SUBCATEGORY_RELATION) :
    get_objectsF (n + 1) kg c = some [c] := by
  obtain ⟨-, -, ht⟩ := indexInv_built hb
  have hidx : ∀ f ∈ kg.get_facts_by_tail c,
      f.relation ≠ KnowledgeGraph.SUBCATEGORY_RELATION := by
    intro f hf
    rw [KnowledgeGraph.get_facts_by_tail, ht, List.mem_filter] at hf
    exact h f hf.1 (by simpa using hf.2)
  simp only [get_objectsF]
  rw [collectObjects_no_sub n kg (kg.get_facts_by_tail c) [] hidx]
  simp

/-- On a reachable graph, `get_objects` of a category whose declared
subcategories are all the leaf `s` (with at least one such declaration)
returns exactly the singleton of `s`. -/
theorem get_objects_single_leaf_child {kg : KnowledgeGraph} (hb : Built kg)
    (c s : Entity) (n : Nat)
    (h1 : ∀ f ∈ kg.facts, f.tail = c →
      f.relation = KnowledgeGraph.SUBCATEGORY_RELATION → f.head = s)
    (h2 : ∃ f ∈ kg.facts, f.tail = c ∧ f.relation = KnowledgeGraph.SUBCATEGORY_RELATION)
    (h3 : ∀ f ∈ kg.facts, f.tail = s → f.relation ≠ KnowledgeGraph.SUBCATEGORY_RELATION) :
    get_objectsF (n + 2) kg c = some [s] := by
  obtain ⟨-, -, ht⟩ := indexInv_built hb
  have hrec : get_objectsF (n + 1) kg s = some [s] := get_objects_leaf hb s n h3
  have hidx : ∀ f ∈ kg.get_facts_by_tail c,
      f.relation = KnowledgeGraph.SUBCATEGORY_RELATION → f.head = s := by
    intro f hf hr
    rw [KnowledgeGraph.get_facts_by_tail, ht, List.mem_filter] at hf
    exact h1 f hf.1 (by simpa using hf.2) hr
  have hany : (kg.get_facts_by_tail c).any
      (fun f => decide (f.relation = KnowledgeGraph.SUBCATEGORY_RELATION)) = true := by
    obtain ⟨f, hf, hft, hfr⟩ := h2
    have hmem : f ∈ kg.get_facts_by_tail c := by
      rw [KnowledgeGraph.get_facts_by_tail, ht, List.mem_filter]
      exact ⟨hf, by simp [hft]⟩
    rw [List.any_eq_true]
    exact ⟨f, hmem, by simp [hfr]⟩
  have hn2 : n + 2 = (n + 1) + 1 := rfl
  rw [hn2]
  simp only [get_objectsF]
  rw [collectObjects_single_sub (n + 1) kg s hrec (kg.get_facts_by_tail c) [] hidx, hany]
  simp [setAdd]

/-- Claim C5.  On any reachable graph: `get_objects` of a category with
no declared subcategories is the singleton of the category itself, and
`get_objects` of a category `C` whose only declared subcategory is a leaf
`S` is exactly `{S}` (so never containing `C`), at every sufficient fuel
bound. -/
theorem c5_get_objects_leaf_semantics :
    (∀ (kg : KnowledgeGraph), Built kg → ∀ (c : Entity) (n : Nat),
      (∀ f ∈ kg.facts, f.tail = c → f.relation ≠ KnowledgeGraph.SUBCATEGORY_RELATION) →
      get_objectsF (n + 1) kg c = some [c]) ∧
    (∀ (kg : KnowledgeGraph), Built kg → ∀ (c s : Entity) (n : Nat),
      (∀ f ∈ kg.facts, f.tail = c →
        f.relation = KnowledgeGraph.SUBCATEGORY_RELATION → f.head = s) →
      (∃ f ∈ kg.facts, f.tail = c ∧ f.relation = KnowledgeGraph.SUBCATEGORY_RELATION) →
      (∀ f ∈ kg.facts, f.tail = s → f.relation ≠ KnowledgeGraph.SUBCATEGORY_RELATION) →
      get_objectsF (n + 2) kg c = some [s]) :=
  ⟨fun _ hb c n h => get_objects_leaf hb c n h,
   fun _ hb c s n h1 h2 h3 => get_objects_single_leaf_child hb c s n h1 h2 h3⟩

/-- The one-fact graph `{(s, 'is of', c)}` used by the C5 witness. -/
def leafKG : KnowledgeGraph :=
  KnowledgeGraph.empty.add ⟨0, ⟨"s"⟩, KnowledgeGraph.SUBCATEGORY_RELATION, ⟨"c"⟩⟩

/-- Witness for C5 at the concrete graph `{(s, 'is of', c)}`. -/
theorem c5_get_objects_leaf_semantics_witness :
    get_objectsF 1 leafKG ⟨"s"⟩ = some [⟨"s"⟩] ∧
    get_objectsF 2 leafKG ⟨"c"⟩ = some [⟨"s"⟩] := by
  have hbuilt : Built leafKG :=
    Built.add ⟨0, ⟨"s"⟩, KnowledgeGraph.SUBCATEGORY_RELATION, ⟨"c"⟩⟩ Built.empty
  constructor
  · exact c5_get_objects_leaf_semantics.1 leafKG hbuilt ⟨"s"⟩ 0 (by decide)
  · exact c5_get_objects_leaf_semantics.2 leafKG hbuilt ⟨"c"⟩ ⟨"s"⟩ 0 (by decide)
      ⟨⟨0, ⟨"s"⟩, KnowledgeGraph.SUBCATEGORY_RELATION, ⟨"c"⟩⟩, by decide⟩ (by decide)

/-! ## Loader characterization (claim C6) -/

/-- Every stored fact was allocated before the next fresh identity. -/
def Fresh (st : LoadState) : Prop := ∀ f ∈ st.kg.facts, f.uid < st.next

theorem stateAddFact_facts (st : LoadState) (h : Entity) (r : Relation) (t : Entity)
    (hf : Fresh st) :
    (stateAddFact st h r t).kg.facts = st.kg.facts ++ [⟨st.next, h, r, t⟩] := by
  have hnot : (⟨st.next, h, r, t⟩ : Fact) ∉ st.kg.facts := by
    intro hmem
    exact absurd (hf _ hmem) (by simp)
  show setAdd st.kg.facts _ = _
  rw [setAdd, if_neg hnot]

theorem stateAddFact_fresh (st : LoadState) (h : Entity) (r : Relation) (t : Entity)
    (hf : Fresh st) : Fresh (stateAddFact st h r t) := by
  intro f hfm
  rw [stateAddFact_facts st h r t hf, List.mem_append] at hfm
  rcases hfm with hfm | hfm
  · exact Nat.lt_succ_of_lt (hf f hfm)
  · simp at hfm
    simp [hfm, stateAddFact]

theorem stateAddFact_triples (st : LoadState) (h : Entity) (r : Relation) (t : Entity)
    (hf : Fresh st) :
    factTriples (stateAddFact st h r t).kg = factTriples st.kg ++ [(h, r, t)] := by
  rw [factTriples, stateAddFact_facts st h r t hf]
  simp [factTriples]

theorem addTailList_spec (head rel : String) :
    ∀ (ts : List String) (st : LoadState), Fresh st →
      Fresh (addTailList head rel ts st) ∧
      factTriples (addTailList head rel ts st).kg =
        factTriples st.kg ++ ts.map (fun t => ((⟨head⟩ : Entity), (⟨rel⟩ : Relation),
          (⟨t⟩ : Entity))) := by
  intro ts
  induction ts with
  | nil => intro st hf; exact ⟨hf, by simp [addTailList]⟩
  | cons t ts ih =>
    intro st hf
    have hf1 := stateAddFact_fresh st ⟨head⟩ ⟨rel⟩ ⟨t⟩ hf
    obtain ⟨hf2, htr⟩ := ih (stateAddFact st ⟨head⟩ ⟨rel⟩ ⟨t⟩) hf1
    refine ⟨by simpa [addTailList] using hf2, ?_⟩
    simp only [addTailList]
    rw [htr, stateAddFact_triples st ⟨head⟩ ⟨rel⟩ ⟨t⟩ hf]
    simp

theorem addRelTails_spec (head : String) :
    ∀ (rts : List (String × JsonTails)) (st : LoadState), Fresh st →
      Fresh (addRelTails head rts st) ∧
      factTriples (addRelTails head rts st).kg =
        factTriples st.kg ++ rts.flatMap (fun rt =>
          (tailsToList rt.2).map (fun t => ((⟨head⟩ : Entity), (⟨rt.1⟩ : Relation),
            (⟨t⟩ : Entity)))) := by
  intro rts
  induction rts with
  | nil => intro st hf; exact ⟨hf, by simp [addRelTails]⟩
  | cons rt rts ih =>
    intro st hf
    obtain ⟨hf1, htr1⟩ := addTailList_spec head rt.1 (tailsToList rt.2) st hf
    obtain ⟨hf2, htr2⟩ := ih (addTailList head rt.1 (tailsToList rt.2) st) hf1
    refine ⟨by simpa [addRelTails] using hf2, ?_⟩
    simp only [addRelTails]
    rw [htr2, htr1]
    simp

theorem update_knowledge_graph_spec :
    ∀ (content : FileContent) (category : String) (st : LoadState), Fresh st →
      Fresh (update_knowledge_graph content category st) ∧
      factTriples (update_knowledge_graph content category st).kg =
        factTriples st.kg ++ specFileTriples category content := by
  intro content
  induction content with
  | nil => intro category st hf; exact ⟨hf, by simp [update_knowledge_graph, specFileTriples]⟩
  | cons hr rest ih =>
    intro category st hf
    obtain ⟨head, relations⟩ := hr
    have hf1 := stateAddFact_fresh st ⟨head⟩ KnowledgeGraph.SUBCATEGORY_RELATION ⟨category⟩ hf
    obtain ⟨hf2, htr2⟩ := addRelTails_spec head relations _ hf1
    obtain ⟨hf3, htr3⟩ := ih category _ hf2
    refine ⟨by simpa [update_knowledge_graph] using hf3, ?_⟩
    simp only [update_knowledge_graph]
    rw [htr3, htr2, stateAddFact_triples st ⟨head⟩ KnowledgeGraph.SUBCATEGORY_RELATION
      ⟨category⟩ hf]
    simp [specFileTriples]

theorem load_data_recur_spec (N : Nat) :
    ∀ (es : List DirEntry), sizeOf es ≤ N →
    ∀ (cat : Option String) (st : LoadState), Fresh st →
      (allJson es = false → load_data_recur cat es st = none) ∧
      (allJson es = true → ∃ st', load_data_recur cat es st = some st' ∧ Fresh st' ∧
        factTriples st'.kg = factTriples st.kg ++ specDirTriples cat es) := by
  induction N using Nat.strong_induction_on with
  | _ N IH =>
    intro es hsize cat st hfresh
    cases es with
    | nil =>
      refine ⟨fun hfalse => by simp [allJson] at hfalse, fun _ => ?_⟩
      exact ⟨st, by simp [load_data_recur], hfresh, by simp [specDirTriples]⟩
    | cons e rest =>
      cases e with
      | file stem ext content =>
        have hlt : sizeOf rest < N := by
          have h0 : sizeOf rest < sizeOf (DirEntry.file stem ext content :: rest) := by
            simp
          omega
        by_cases hext : ext = ".json"
        · subst hext
          cases cat with
          | none =>
            obtain ⟨hf2, htr2⟩ := update_knowledge_graph_spec content stem st hfresh
            have hrec := IH (sizeOf rest) hlt rest le_rfl none
              (update_knowledge_graph content stem st) hf2
            have hload :
                load_data_recur none (DirEntry.file stem ".json" content :: rest) st =
                  load_data_recur none rest (update_knowledge_graph content stem st) := by
              simp [load_data_recur]
            have hjson :
                allJson (DirEntry.file stem ".json" content :: rest) = allJson rest := by
              simp [allJson]
            refine ⟨fun hfalse => ?_, fun htrue => ?_⟩
            · rw [hload]
              exact hrec.1 (by rw [hjson] at hfalse; exact hfalse)
            · rw [hjson] at htrue
              obtain ⟨st', hl, hf', htr'⟩ := hrec.2 htrue
              refine ⟨st', by rw [hload]; exact hl, hf', ?_⟩
              rw [htr', htr2]
              simp [specDirTriples]
          | some c =>
            have hf1 := stateAddFact_fresh st ⟨stem⟩
              KnowledgeGraph.SUBCATEGORY_RELATION ⟨c⟩ hfresh
            have htr1 := stateAddFact_triples st ⟨stem⟩
              KnowledgeGraph.SUBCATEGORY_RELATION ⟨c⟩ hfresh
            obtain ⟨hf2, htr2⟩ := update_knowledge_graph_spec content stem _ hf1
            have hrec := IH (sizeOf rest) hlt rest le_rfl (some c)
              (update_knowledge_graph content stem
                (stateAddFact st ⟨stem⟩ KnowledgeGraph.SUBCATEGORY_RELATION ⟨c⟩)) hf2
            have hload :
                load_data_recur (some c) (DirEntry.file stem ".json" content :: rest) st =
                  load_data_recur (some c) rest (update_knowledge_graph content stem
                    (stateAddFact st ⟨stem⟩ KnowledgeGraph.SUBCATEGORY_RELATION ⟨c⟩)) := by
              simp [load_data_recur]
            have hjson :
                allJson (DirEntry.file stem ".json" content :: rest) = allJson rest := by
              simp [allJson]
            refine ⟨fun hfalse => ?_, fun htrue => ?_⟩
            · rw [hload]
              exact hrec.1 (by rw [hjson] at hfalse; exact hfalse)
            · rw [hjson] at htrue
              obtain ⟨st', hl, hf', htr'⟩ := hrec.2 htrue
              refine ⟨st', by rw [hload]; exact hl, hf', ?_⟩
              rw [htr', htr2, htr1]
              simp [specDirTriples]
        · refine ⟨fun _ => by rw [load_data_recur.eq_def]; simp [hext], fun htrue => ?_⟩
          have hfalse : allJson (DirEntry.file stem ext content :: rest) = false := by
            simp [allJson, hext]
          rw [hfalse] at htrue
          exact absurd htrue (by simp)
      | dir name entries =>
        have hlte : sizeOf entries < N := by
          have h0 : sizeOf entries < sizeOf (DirEntry.dir name entries :: rest) := by
            simp
            omega
          omega
        have hltr : sizeOf rest < N := by
          have h0 : sizeOf rest < sizeOf (DirEntry.dir name entries :: rest) := by
            simp
          omega
        have hjson : allJson (DirEntry.dir name entries :: rest) =
            (allJson entries && allJson rest) := by
          simp [allJson]
        have hinner := IH (sizeOf entries) hlte entries le_rfl (some name) st hfresh
        by_cases hje : allJson entries = true
        · obtain ⟨st1, hl1, hf1, htr1⟩ := hinner.2 hje
          have hload : load_data_recur cat (DirEntry.dir name entries :: rest) st =
              load_data_recur cat rest st1 := by
            simp [load_data_recur, hl1]
          have hrec := IH (sizeOf rest) hltr rest le_rfl cat st1 hf1
          constructor
          · intro hfalse
            rw [hjson] at hfalse
            simp [hje] at hfalse
            rw [hload]
            exact hrec.1 hfalse
          · intro htrue
            rw [hjson] at htrue
            simp [hje] at htrue
            obtain ⟨st', hl, hf', htr'⟩ := hrec.2 htrue
            refine ⟨st', by rw [hload]; exact hl, hf', ?_⟩
            rw [htr', htr1]
            simp [specDirTriples]
        · have hje' : allJson entries = false := by
            cases hx : allJson entries
            · rfl
            · exact absurd hx hje
          have hload : load_data_recur cat (DirEntry.dir name entries :: rest) st =
              none := by
            simp [load_data_recur, hinner.1 hje']
          refine ⟨fun _ => hload, fun htrue => ?_⟩
          rw [hjson] at htrue
          simp [hje'] at htrue

/-- Claim C6.  For every directory tree: if every file has the accepted
`.json` extension the load succeeds and the emitted facts are exactly the
spec-described ones — one `(subcategory, SUBCATEGORY_RELATION, category)`
fact per data file directly under a non-root category directory and none
for files directly under the root, then per file one
`(head, SUBCATEGORY_RELATION, subcategory)` fact per head key and one
`(head, relation, tail)` fact per (relation, tail) pair with list-valued
tails expanded one fact per element (`specDirTriples`); if any file has a
different extension the load is a hard error. -/
theorem c6_loader_characterization (es : List DirEntry) :
    (allJson es = false → load_data es = none) ∧
    (allJson es = true → ∃ st', load_data es = some st' ∧
      factTriples st'.kg = specDirTriples none es) := by
  have hfresh : Fresh ⟨KnowledgeGraph.empty, 0⟩ := by
    intro f hf
    simp [KnowledgeGraph.empty] at hf
  have h := load_data_recur_spec (sizeOf es) es le_rfl none ⟨KnowledgeGraph.empty, 0⟩ hfresh
  refine ⟨fun hfalse => h.1 hfalse, fun htrue => ?_⟩
  obtain ⟨st', hl, -, htr⟩ := h.2 htrue
  refine ⟨st', hl, ?_⟩
  rw [htr]
  simp [factTriples, KnowledgeGraph.empty]

/-- The two-level directory tree used by the C6 witness. -/
def tree0 : List DirEntry :=
  [DirEntry.dir "diagnosis" [DirEntry.file "eyes" ".json"
     [("redness", [("hints for elevation", JsonTails.single "pitta")])]],
   DirEntry.file "food" ".json"
     [("ginger", [("pacifies", JsonTails.many ["pitta", "kapha"])])]]

/-- Witness for C6: loading the concrete two-level tree succeeds and
emits exactly the spec-described facts. -/
theorem c6_loader_characterization_witness :
    ∃ st', load_data tree0 = some st' ∧ factTriples st'.kg = specDirTriples none tree0 :=
  (c6_loader_characterization tree0).2 (by simp [allJson, tree0])

/-! ## Anomaly scorer (claims C7 and C10) -/

theorem logScoresOf_of_nonneg :
    ∀ (scores : List (String × ℝ)), (∀ p ∈ scores, 0 ≤ p.2) →
      logScoresOf scores = some (scores.map (fun p => Real.log (p.2 + 0.1))) := by
  intro scores
  induction scores with
  | nil => intro _; simp [logScoresOf]
  | cons p rest ih =>
    intro h
    obtain ⟨a, s⟩ := p
    have hs : (0 : ℝ) ≤ s := h (a, s) (by simp)
    simp only [logScoresOf, if_pos hs, ih (fun q hq => h q (by simp [hq]))]
    simp

theorem logScoresOf_of_neg :
    ∀ (scores : List (String × ℝ)), (∃ p ∈ scores, p.2 < 0) →
      logScoresOf scores = none := by
  intro scores
  induction scores with
  | nil => intro h; simp at h
  | cons p rest ih =>
    intro h
    obtain ⟨a, s⟩ := p
    obtain ⟨q, hq, hneg⟩ := h
    rcases List.mem_cons.mp hq with hq | hq
    · have hs : ¬ (0 : ℝ) ≤ s := by
        rw [hq] at hneg
        exact not_le.mpr hneg
      simp [logScoresOf, if_neg hs]
    · by_cases hs : (0 : ℝ) ≤ s
      · simp [logScoresOf, if_pos hs, ih ⟨q, hq, hneg⟩]
      · simp [logScoresOf, if_neg hs]

/-- Claim C7.  `get_anomalies` fails (the per-item `assert score >= 0`)
whenever some input score is negative; on a non-empty mapping of
non-negative scores it succeeds and returns exactly the items whose
softmax probability — the `softmax` of the `log(score + 0.1)` values,
computed with max-subtraction — strictly exceeds the threshold
(`thresholdFilter`). -/
theorem c7_get_anomalies_spec (scores : List (String × ℝ)) (t : ℝ) :
    ((∃ p ∈ scores, p.2 < 0) → get_anomalies scores t = none) ∧
    (scores ≠ [] → (∀ p ∈ scores, 0 ≤ p.2) →
      ∃ probs, softmax (scores.map (fun p => Real.log (p.2 + 0.1))) = some probs ∧
        get_anomalies scores t =
          some (thresholdFilter t ((scores.map Prod.fst).zip probs))) := by
  constructor
  · intro hneg
    simp [get_anomalies, logScoresOf_of_neg scores hneg]
  · intro hne hnn
    have hlog := logScoresOf_of_nonneg scores hnn
    have hmapne : scores.map (fun p => Real.log (p.2 + 0.1)) ≠ [] := by
      simpa using hne
    cases hmax : (scores.map (fun p => Real.log (p.2 + 0.1))).max? with
    | none => exact absurd (List.max?_eq_none_iff.mp hmax) hmapne
    | some m =>
      have hsm : ∃ probs,
          softmax (scores.map (fun p => Real.log (p.2 + 0.1))) = some probs := by
        unfold softmax
        rw [hmax]
        exact ⟨_, rfl⟩
      obtain ⟨probs, hsm⟩ := hsm
      refine ⟨probs, hsm, ?_⟩
      simp [get_anomalies, hlog, hsm]

/-- Witness for C7: a negative score fails; the singleton mapping
`{a: 0}` at threshold 1/2 yields softmax probability 1 > 1/2, so `a` is
returned. -/
theorem c7_get_anomalies_spec_witness :
    get_anomalies [("a", -1)] 0 = none ∧
    get_anomalies [("a", 0)] (1 / 2) = some [("a", 1)] := by
  constructor
  · exact (c7_get_anomalies_spec [("a", -1)] 0).1 ⟨("a", -1), by simp, by norm_num⟩
  · obtain ⟨probs, hs, hr⟩ := (c7_get_anomalies_spec [("a", 0)] (1 / 2)).2 (by simp)
      (by
        intro p hp
        simp at hp
        rw [hp])
    have hmap : ([(("a" : String), (0 : ℝ))].map fun p => Real.log (p.2 + 0.1)) =
        [Real.log (0 + 0.1)] := by simp
    have hcalc : softmax [Real.log ((0 : ℝ) + 0.1)] = some [1] := by
      simp [softmax, List.max?, sub_self, Real.exp_zero]
    rw [hmap, hcalc] at hs
    have hp : probs = [1] := (Option.some.inj hs).symm
    rw [hr, hp]
    have hzip : (List.map Prod.fst [(("a" : String), (0 : ℝ))]).zip ([1] : List ℝ) =
        [("a", 1)] := by simp
    have hfilter : thresholdFilter (1 / 2) [(("a" : String), (1 : ℝ))] = [("a", 1)] := by
      rw [thresholdFilter, if_pos (by norm_num), thresholdFilter]
    rw [hzip, hfilter]

/-- Claim C10.  `get_anomalies` on the empty score mapping reaches
`max([])` inside `softmax` — a raised `ValueError` — rather than
returning an empty result. -/
theorem c10_empty_scores_error (t : ℝ) : get_anomalies [] t = none := by
  simp [get_anomalies, logScoresOf, softmax]

end AvKG
